import Mathlib

/-!
Verification development for the tidyup artifact scanner.

The filesystem is modelled as a finite tree of named entries with
modification times (in seconds) and file sizes.  Directory walks,
artifact classification, usage heuristics and the safety filter are
shallow embeddings of the corresponding Go functions; timestamps are
natural numbers and ages are rationals (days), standing in for Go's
`time.Time` and `float64` day counts.
-/

set_option maxHeartbeats 1000000

namespace Tidyup

/-- A filesystem entry: a regular file with a modification time and size,
or a directory with a modification time and a list of children. -/
inductive FSTree where
  | file (name : String) (mtime : Nat) (size : Nat) : FSTree
  | dir (name : String) (mtime : Nat) (children : List FSTree) : FSTree

namespace FSTree

/-- Base name of the entry. -/
def name : FSTree → String
  | .file n _ _ => n
  | .dir n _ _ => n

/-- Modification time of the entry. -/
def mtime : FSTree → Nat
  | .file _ m _ => m
  | .dir _ m _ => m

/-- Children of the entry; a regular file has none. -/
def children : FSTree → List FSTree
  | .file _ _ _ => []
  | .dir _ _ cs => cs

/-- Whether the entry is a directory. -/
def isDirB : FSTree → Bool
  | .file _ _ _ => false
  | .dir _ _ _ => true

end FSTree

/-- Look up the child with the given name (an `os.Stat` of one path
component); real directories have at most one entry per name. -/
def lookupChild (cs : List FSTree) (n : String) : Option FSTree :=
  cs.find? (fun c => c.name = n)

/-- Resolve a relative component path inside an entry (`os.Stat`). -/
def statPath (t : FSTree) : List String → Option FSTree
  | [] => some t
  | n :: rest =>
    match lookupChild t.children n with
    | some c => statPath c rest
    | none => none

mutual
/-- Total bytes of regular files under an entry (`dirSize` in the source,
computed by `filepath.WalkDir`; unreadable entries are not modelled). -/
def dirSize : FSTree → Nat
  | .file _ _ s => s
  | .dir _ _ cs => dirSizeList cs

/-- Sum of `dirSize` over a list of children. -/
def dirSizeList : List FSTree → Nat
  | [] => 0
  | c :: rest => dirSize c + dirSizeList rest
end

mutual
/-- Newest modification time among regular files in the subtree, with a
flag recording whether any file was seen (the accumulator of the
`WalkDir` loops in `getCacheUsage`; the time starts at the zero time). -/
def newestFileMtime : FSTree → Nat × Bool
  | .file _ m _ => (m, true)
  | .dir _ _ cs => newestFileMtimeList cs

/-- Fold of `newestFileMtime` over a list of children. -/
def newestFileMtimeList : List FSTree → Nat × Bool
  | [] => (0, false)
  | c :: rest =>
    let a := newestFileMtime c
    let b := newestFileMtimeList rest
    (max a.1 b.1, a.2 || b.2)
end

/-- No string occurs twice in the list. -/
def nodupNames : List String → Bool
  | [] => true
  | n :: ns => (!ns.contains n) && nodupNames ns

mutual
/-- Well-formedness of a filesystem tree: sibling names are distinct at
every level, as they are on a real filesystem. -/
def wfTree : FSTree → Bool
  | .file _ _ _ => true
  | .dir _ _ cs => nodupNames (cs.map FSTree.name) && wfList cs

/-- Well-formedness of a list of subtrees. -/
def wfList : List FSTree → Bool
  | [] => true
  | c :: rest => wfTree c && wfList rest
end

/-! ### Go string primitives

The Go standard-library string functions the scanner relies on, embedded
over `List Char` (ASCII semantics, which covers every string the scanner
compares against). -/

/-- White space characters recognised by `strings.TrimSpace`. -/
def isSpaceGo (c : Char) : Bool :=
  c = ' ' || c = '\t' || c = '\n' || c = '\x0b' || c = '\x0c' || c = '\r'

/-- Embeds `strings.TrimSpace`: drop white space on both ends. -/
def trimSpace (l : List Char) : List Char :=
  ((l.dropWhile isSpaceGo).reverse.dropWhile isSpaceGo).reverse

/-- ASCII lower-casing, as `strings.ToLower` acts on the scanner's inputs. -/
def toLowerGo (l : List Char) : List Char :=
  l.map fun c => if 'A' ≤ c && c ≤ 'Z' then Char.ofNat (c.toNat + 32) else c

/-- Split on every occurrence of a separator character (the semantics
of `strings.Split` with a one-character separator). -/
def splitOnCh (sep : Char) : List Char → List (List Char)
  | [] => [[]]
  | c :: rest =>
    if c = sep then [] :: splitOnCh sep rest
    else
      match splitOnCh sep rest with
      | [] => [[c]]
      | t :: ts => (c :: t) :: ts

/-- Embeds `strings.Split(s, ",")`. -/
def splitOnComma : List Char → List (List Char) :=
  splitOnCh ','

/-- Embeds `strings.Contains`: `pat` occurs as a contiguous substring. -/
def containsSub (l pat : List Char) : Bool :=
  pat.isPrefixOf l ||
    match l with
    | [] => false
    | _ :: rest => containsSub rest pat

/-- Render an absolute component path the way the walker's path strings
look: `[]` is the root `/`, otherwise `/a/b/...`. -/
def renderPathChars : List String → List Char
  | [] => ['/']
  | comps => comps.flatMap fun n => '/' :: n.toList

/-- The same rendering as a `String`. -/
def renderPath (p : List String) : String :=
  ⟨renderPathChars p⟩

/-- One character range of a `filepath.Match` character class. -/
def classRangeMatch (lo hi c : Char) : Bool := lo ≤ c && c ≤ hi

/-- Parse the ranges of a `[...]` class in a `filepath.Match` pattern,
returning the ranges and the rest of the pattern, or `none` on a
malformed class (Go reports `ErrBadPattern`, which the caller discards
as a non-match). -/
def parseClass : List Char → Nat → Option (List (Char × Char) × List Char)
  | [], _ => none
  | ']' :: ps, nr => if nr = 0 then none else some ([], ps)
  | '-' :: _, _ => none
  | '\\' :: lo :: '-' :: '\\' :: hi :: ps, nr =>
    (parseClass ps (nr + 1)).map fun r => ((lo, hi) :: r.1, r.2)
  | '\\' :: _ :: '-' :: ']' :: _, _ => none
  | '\\' :: _ :: '-' :: '-' :: _, _ => none
  | '\\' :: _ :: ['-'], _ => none
  | '\\' :: lo :: '-' :: hi :: ps, nr =>
    (parseClass ps (nr + 1)).map fun r => ((lo, hi) :: r.1, r.2)
  | '\\' :: lo :: ps, nr =>
    (parseClass ps (nr + 1)).map fun r => ((lo, lo) :: r.1, r.2)
  | ['\\'], _ => none
  | lo :: '-' :: '\\' :: hi :: ps, nr =>
    (parseClass ps (nr + 1)).map fun r => ((lo, hi) :: r.1, r.2)
  | _ :: '-' :: ']' :: _, _ => none
  | _ :: '-' :: '-' :: _, _ => none
  | _ :: ['-'], _ => none
  | lo :: '-' :: hi :: ps, nr =>
    (parseClass ps (nr + 1)).map fun r => ((lo, hi) :: r.1, r.2)
  | lo :: ps, nr =>
    (parseClass ps (nr + 1)).map fun r => ((lo, lo) :: r.1, r.2)

/-- Strip the optional `^` negation marker of a character class. -/
def negSplit : List Char → Bool × List Char
  | '^' :: ps => (true, ps)
  | ps => (false, ps)

/-- Embeds `path/filepath.Match` (anchored glob match; `*` and `?` do not
cross a separator; a malformed pattern is treated as a non-match, as the
scanner ignores the returned error). -/
def goMatch : List Char → List Char → Bool
  | [], [] => true
  | [], _ :: _ => false
  | '*' :: ps, ns =>
    goMatch ps ns ||
      match ns with
      | [] => false
      | c :: ns' => c ≠ '/' && goMatch ('*' :: ps) ns'
  | '?' :: ps, ns =>
    (match ns with
     | c :: ns' => c ≠ '/' && goMatch ps ns'
     | [] => false)
  | '\\' :: ps, ns =>
    (match ps, ns with
     | p :: ps', c :: ns' => p = c && goMatch ps' ns'
     | _, _ => false)
  | '[' :: ps, ns =>
    (match ns with
     | c :: ns' =>
       (match negSplit ps with
        | (neg, ps') =>
          match parseClass ps' 0 with
          | some (ranges, ps'') =>
            (ranges.any fun r => classRangeMatch r.1 r.2 c) ≠ neg
              && goMatch ps'' ns'
          | none => false)
     | [] => false)
  | p :: ps, ns =>
    (match ns with
     | c :: ns' => p = c && goMatch ps ns'
     | [] => false)
termination_by ps ns => (ns.length, ps.length)

/-- Embeds `filepath.Base` on the rendered path strings the walker
passes to `matchesExclude`. -/
def baseNameChars (l : List Char) : List Char :=
  if l = ['/'] then ['/']
  else (l.reverse.takeWhile (· ≠ '/')).reverse

/-! ### Usage heuristics and classification helpers

Each function takes the directory's subtree and, where the Go code stats
paths in the parent directory, the parent's child list.  A pair
`(timestamp, found)` mirrors Go's `(time.Time, bool)` returns. -/

/-- Embeds `isVenv`: the directory contains a `pyvenv.cfg` entry. -/
def isVenv (t : FSTree) : Bool :=
  (lookupChild t.children "pyvenv.cfg").isSome

/-- Embeds `isValidVenv`: `pyvenv.cfg` plus a `bin` or `Scripts` entry. -/
def isValidVenv (t : FSTree) : Bool :=
  (lookupChild t.children "pyvenv.cfg").isSome &&
    ((lookupChild t.children "bin").isSome ||
      (lookupChild t.children "Scripts").isSome)

/-- Embeds `getVenvUsage` on a non-Windows host (`binDir = "bin"`):
latest modification time among the activation markers, falling back to
the directory's own time when no marker is readable; the directory
itself always stats successfully in this model, so `found` is true. -/
def getVenvUsage (t : FSTree) : Nat × Bool :=
  let targets := [statPath t ["bin", "activate"],
                  statPath t ["pyvenv.cfg"],
                  statPath t ["bin", "python"]]
  let acc := targets.foldl
    (fun (acc : Nat × Bool) m =>
      match m with
      | some e => (if acc.1 < e.mtime then e.mtime else acc.1, true)
      | none => acc)
    (0, false)
  if acc.2 then acc else (t.mtime, true)

/-- Embeds the `filepath.Glob(path/lib/python*/site-packages)` step of
`getSitePackagesUsage`: every `site-packages` entry below a `python*`
entry of the `lib` child. -/
def sitePackagesMatches (t : FSTree) : List FSTree :=
  match lookupChild t.children "lib" with
  | some lib =>
    (lib.children.filter fun c => c.name.startsWith "python").filterMap
      fun c => lookupChild c.children "site-packages"
  | none => []

/-- Embeds `getSitePackagesUsage`: newest file time across all glob
matches; `found` only when some regular file exists under a match. -/
def getSitePackagesUsage (t : FSTree) : Nat × Bool :=
  match sitePackagesMatches t with
  | [] => (0, false)
  | ms =>
    ms.foldl
      (fun (acc : Nat × Bool) m =>
        let r := newestFileMtime m
        (max acc.1 r.1, acc.2 || r.2))
      (0, false)

/-- First entry of the parent directory whose name is in the lock-file
list, scanned in list order (the `for` loop of `getNodeModulesUsage`). -/
def lockLoop (parent : List FSTree) : List String → Option FSTree
  | [] => none
  | n :: rest =>
    match lookupChild parent n with
    | some e => some e
    | none => lockLoop parent rest

/-- Embeds `getNodeModulesUsage`: the internal `.package-lock.json`
time, else the first sibling lock file's time, else the directory's own
time (the directory itself always stats successfully in this model). -/
def getNodeModulesUsage (parent : List FSTree) (t : FSTree) : Nat × Bool :=
  match lookupChild t.children ".package-lock.json" with
  | some e => (e.mtime, true)
  | none =>
    match lockLoop parent
        ["package-lock.json", "yarn.lock", "pnpm-lock.yaml", "bun.lockb"] with
    | some e => (e.mtime, true)
    | none => (t.mtime, true)

/-- Embeds `getCacheUsage`: newest regular-file time in the subtree,
falling back to the directory's own time when the subtree has no files. -/
def getCacheUsage (t : FSTree) : Nat × Bool :=
  let r := newestFileMtime t
  if r.2 then r else (t.mtime, true)

/-- Embeds `getBuildUsage`, which simply calls `getCacheUsage`. -/
def getBuildUsage (t : FSTree) : Nat × Bool :=
  getCacheUsage t

/-- Embeds `hasBuildParent`: the parent directory contains one of the
recognised build-system manifests. -/
def hasBuildParent (parent : List FSTree) : Bool :=
  ["pyproject.toml", "setup.py", "setup.cfg", "package.json"].any
    fun m => (lookupChild parent m).isSome

/-- Embeds `matchesExclude`: a pattern glob-matches the base name, or
occurs as a substring of the full path. -/
def matchesExclude (pathChars : List Char) (patterns : List String) : Bool :=
  patterns.any fun pat =>
    goMatch pat.toList (baseNameChars pathChars) ||
      containsSub pathChars pat.toList

/-! ### The walker -/

/-- The subset of the CLI options the scanner reads (`options` in the
source); `scanTypes` carries the keys mapped to `true`. -/
structure Options where
  minAge : Int
  maxDepth : Int
  minSize : Int
  excludePatterns : List String
  scanTypes : List String
deriving Repr, DecidableEq

/-- One detected artifact (`Record` in the source).  `path` is kept as
absolute components, `lastUsed` as the raw timestamp (its `2006-01-02`
rendering is not modelled) and `ageDays` as an exact rational. -/
structure Record where
  type : String
  path : List String
  size : Nat
  lastUsed : Nat
  ageDays : ℚ
deriving Repr, DecidableEq

/-- Age in fractional days of a timestamp, seen from `now`
(`time.Since(lastUsed).Hours() / 24`, with timestamps in seconds);
`Rat.divInt` is exact rational division. -/
def ageDaysOf (now : Nat) (lastUsed : Nat) : ℚ :=
  Rat.divInt ((now : Int) - (lastUsed : Int)) 86400

/-- Embeds `dispatchRecord`: check the usage result, the age threshold
and then the size threshold, and build the Record. -/
def dispatchRecord (now : Nat) (opts : Options) (path : List String)
    (typeName : String) (usage : Nat × Bool) (t : FSTree) : Option Record :=
  if usage.2 = false then none
  else if ageDaysOf now usage.1 < (opts.minAge : ℚ) then none
  else if (dirSize t : Int) < opts.minSize then none
  else some ⟨typeName, path, dirSize t, usage.1, ageDaysOf now usage.1⟩

/-- The `skipUnlessScanning` table: name-matched directories that are
skipped always and dispatched when their type is enabled. -/
def skipUnlessScanning (n : String) : Option String :=
  if n = "node_modules" then some "node_modules"
  else if n = "__pycache__" then some "pycache"
  else if n = ".pytest_cache" then some "pytest_cache"
  else if n = ".mypy_cache" then some "mypy_cache"
  else if n = ".ruff_cache" then some "ruff_cache"
  else none

/-- Names pruned unconditionally by the walker. -/
def alwaysSkip (n : String) : Bool :=
  n = ".git" || n = "Library" || n = ".Trash"

/-- The `lastUsed` value of the walker's venv branch: the marker time,
overridden by the site-packages time when that is strictly newer. -/
def venvLastUsed (t : FSTree) : Nat :=
  if (getSitePackagesUsage t).2 ∧ (getVenvUsage t).1 < (getSitePackagesUsage t).1
  then (getSitePackagesUsage t).1
  else (getVenvUsage t).1

/-- The walker's per-directory body (the `WalkDir` callback of
`scanRoots` on directory entries).  `none` means descend into the
children; `some rs` means `filepath.SkipDir`, with `rs` the Record the
visit dispatched, if any. -/
def visitDir (opts : Options) (now : Nat) (depth : Nat)
    (parent : List FSTree) (path : List String) (t : FSTree) :
    Option (Option Record) :=
  if depth ≠ 0 ∧ opts.maxDepth < (depth : Int) then some none
  else if alwaysSkip t.name then some none
  else if matchesExclude (renderPathChars path) opts.excludePatterns then
    some none
  else
    match skipUnlessScanning t.name with
    | some typeKey =>
      if typeKey ∈ opts.scanTypes then
        let usage := if typeKey = "node_modules"
          then getNodeModulesUsage parent t
          else getCacheUsage t
        some (dispatchRecord now opts path typeKey usage t)
      else some none
    | none =>
      if t.name = "dist" ∧ "dist" ∈ opts.scanTypes ∧ hasBuildParent parent then
        some (dispatchRecord now opts path "dist" (getBuildUsage t) t)
      else if t.name = "build" ∧ "build" ∈ opts.scanTypes ∧
          hasBuildParent parent then
        some (dispatchRecord now opts path "build" (getBuildUsage t) t)
      else if "venv" ∈ opts.scanTypes ∧ isVenv t then
        if ¬ isValidVenv t then some none
        else if (getVenvUsage t).2 = false then some none
        else if (opts.minAge : ℚ) ≤ ageDaysOf now (venvLastUsed t) then
          if (dirSize t : Int) < opts.minSize then some none
          else some (some ⟨"venv", path, dirSize t, venvLastUsed t,
            ageDaysOf now (venvLastUsed t)⟩)
        else some none
      else none

mutual
/-- Records produced below (and at) one visited entry of the walk. -/
def walkNode (opts : Options) (now : Nat) (depth : Nat)
    (parent : List FSTree) (path : List String) : FSTree → List Record
  | .file _ _ _ => []
  | .dir n m cs =>
    match visitDir opts now depth parent path (.dir n m cs) with
    | some none => []
    | some (some r) => [r]
    | none => walkList opts now (depth + 1) cs path cs

/-- Records produced by walking each child in order; every child's
parent list is the sibling list itself. -/
def walkList (opts : Options) (now : Nat) (depth : Nat)
    (parent : List FSTree) (path : List String) : List FSTree → List Record
  | [] => []
  | c :: rest =>
    walkNode opts now depth parent (path ++ [c.name]) c ++
      walkList opts now depth parent path rest
end

/-- Children of the directory containing `root` (`filepath.Dir`; the
root directory `/` is its own parent). -/
def parentChildrenOf (fs : FSTree) (root : List String) : List FSTree :=
  match statPath fs root.dropLast with
  | some u => u.children
  | none => []

/-- Records found under one accessible root. -/
def rootRecords (fs : FSTree) (opts : Options) (now : Nat)
    (root : List String) : List Record :=
  match statPath fs root with
  | some t => walkNode opts now 0 (parentChildrenOf fs root) root t
  | none => []

/-- The error entry produced for an inaccessible root. -/
def rootError (fs : FSTree) (root : List String) : Option String :=
  match statPath fs root with
  | some _ => none
  | none => some ("path not accessible " ++ renderPath root)

/-- One step of `scanRoots`' loop over the roots: an inaccessible root
appends an error entry, an accessible one appends its walk's records. -/
def scanStep (fs : FSTree) (opts : Options) (now : Nat)
    (acc : List Record × List String) (root : List String) :
    List Record × List String :=
  match statPath fs root with
  | none => (acc.1, acc.2 ++ ["path not accessible " ++ renderPath root])
  | some t =>
    (acc.1 ++ walkNode opts now 0 (parentChildrenOf fs root) root t, acc.2)

/-- Embeds `scanRoots`: walk every root in turn, collecting Records and
root-level errors.  Records appear here in walk order; the Go code
appends them from goroutines in a nondeterministic order, so only the
resulting set is meaningful. -/
def scanRoots (fs : FSTree) (roots : List (List String)) (opts : Options)
    (now : Nat) : List Record × List String :=
  roots.foldl (scanStep fs opts now) ([], [])

/-! ### CLI layer: type parsing, selection parsing, safety filter -/

/-- Every artifact type tidyup knows (`allScanTypes`). -/
def allScanTypes : List String :=
  ["venv", "node_modules", "pycache", "pytest_cache",
   "mypy_cache", "ruff_cache", "dist", "build"]

/-- Idempotent insertion, modelling `m[t] = true` on a `map[string]bool`. -/
def insertType (m : List String) (t : String) : List String :=
  if t ∈ m then m else m ++ [t]

/-- The token loop of `parseScanTypes`: empty tokens are skipped, known
tokens are enabled, unknown tokens produce one warning each. -/
def scanTypesLoop : List String → List String × List String →
    List String × List String
  | [], acc => acc
  | tok :: rest, acc =>
    if tok = "" then scanTypesLoop rest acc
    else if tok ∈ allScanTypes then
      scanTypesLoop rest (insertType acc.1 tok, acc.2)
    else
      scanTypesLoop rest (acc.1, acc.2 ++ ["unrecognized type " ++ tok])

/-- Embeds `parseScanTypes`: `--all` enables everything, an empty flag
defaults to `venv`, otherwise the comma-separated tokens are parsed and
an all-invalid flag falls back to `venv`. -/
def parseScanTypes (typeFlag : String) (allTypes : Bool) :
    List String × List String :=
  if allTypes then (allScanTypes, [])
  else if typeFlag = "" then (["venv"], [])
  else if (scanTypesLoop ((splitOnComma typeFlag.toList).map
      (fun c => (⟨trimSpace c⟩ : String))) ([], [])).1 = [] then
    (["venv"], (scanTypesLoop ((splitOnComma typeFlag.toList).map
      (fun c => (⟨trimSpace c⟩ : String))) ([], [])).2)
  else
    scanTypesLoop ((splitOnComma typeFlag.toList).map
      (fun c => (⟨trimSpace c⟩ : String))) ([], [])

/-- Embeds `strconv.Atoi` on the digits: `none` unless the list is a
non-empty run of decimal digits (the 64-bit range check is not
modelled). -/
def digitsVal : List Char → Option Nat
  | [] => none
  | ds =>
    if ds.all Char.isDigit then
      some (ds.foldl (fun a c => a * 10 + (c.toNat - 48)) 0)
    else none

/-- Embeds `strconv.Atoi`: an optional sign followed by digits. -/
def atoi : List Char → Option Int
  | '+' :: ds => (digitsVal ds).map Int.ofNat
  | '-' :: ds => (digitsVal ds).map fun n => -(n : Int)
  | ds => (digitsVal ds).map Int.ofNat

/-- Idempotent insertion of an index, modelling `result[i] = true`. -/
def insertIdx (acc : List Int) (i : Int) : List Int :=
  if i ∈ acc then acc else acc ++ [i]

/-- Add the 0-based indices of the 1-based range `lo..hi` to the set. -/
def addRange (acc : List Int) (lo hi : Int) : List Int :=
  (List.range (hi + 1 - lo).toNat).foldl
    (fun a k => insertIdx a (lo - 1 + Int.ofNat k)) acc

/-- The token loop of `parseSelection`: empty tokens are skipped, a
token with a dash is a 1-based range, anything else a 1-based number;
the first failure aborts with an error. -/
def selLoop (max : Int) : List (List Char) → List Int →
    Except String (List Int)
  | [], acc => .ok acc
  | part :: rest, acc =>
    if trimSpace part = [] then selLoop max rest acc
    else if (trimSpace part).contains '-' then
      match atoi (trimSpace ((trimSpace part).takeWhile (· ≠ '-'))) with
      | none => .error "invalid number"
      | some lo =>
        match atoi (trimSpace (((trimSpace part).dropWhile (· ≠ '-')).drop 1)) with
        | none => .error "invalid number"
        | some hi =>
          if lo < 1 ∨ hi < 1 then .error "indices must be at least 1"
          else if hi < lo then .error "invalid range, start after end"
          else if max < hi then .error "index out of range"
          else selLoop max rest (addRange acc lo hi)
    else
      match atoi (trimSpace part) with
      | none => .error "invalid input"
      | some n =>
        if n < 1 then .error "index must be at least 1"
        else if max < n then .error "index out of range"
        else selLoop max rest (insertIdx acc (n - 1))

/-- Embeds `parseSelection`: trimmed empty or `none` selects nothing,
`all` selects every 0-based index below `max`, and otherwise the
comma-separated tokens are parsed by `selLoop`. -/
def parseSelection (input : String) (max : Int) : Except String (List Int) :=
  let t := trimSpace input.toList
  if t = [] ∨ toLowerGo t = "none".toList then .ok []
  else if toLowerGo t = "all".toList then
    .ok ((List.range max.toNat).map Int.ofNat)
  else selLoop max (splitOnComma t) []

/-- Whether an `Except` result is a success. -/
def exceptOk : Except String (List Int) → Bool
  | .ok _ => true
  | .error _ => false

/-- Embeds `filepath.Clean`'s element processing: `.` and empty elements
vanish and `..` pops, stopping at the root for rooted paths. -/
def cleanElems (rooted : Bool) : List String → List String → List String
  | acc, [] => acc.reverse
  | acc, e :: rest =>
    if e = "" ∨ e = "." then cleanElems rooted acc rest
    else if e = ".." then
      match acc with
      | a :: acc' => if a = ".." then cleanElems rooted (".." :: acc) rest
                     else cleanElems rooted acc' rest
      | [] => if rooted then cleanElems rooted [] rest
              else cleanElems rooted [".."] rest
    else cleanElems rooted (e :: acc) rest

/-- Split a character list on `/`, as path elements. -/
def splitOnSlash (l : List Char) : List String :=
  (splitOnCh '/' l).map fun c => (⟨c⟩ : String)

/-- Embeds `filepath.Clean` for Unix paths. -/
def cleanPath (l : List Char) : List Char :=
  match l with
  | [] => ['.']
  | c :: _ =>
    let rooted := c = '/'
    let elems := cleanElems rooted [] (splitOnSlash l)
    let body := String.intercalate "/" elems
    if rooted then '/' :: body.toList
    else if elems = [] then ['.']
    else body.toList

/-- The fixed system-critical prefixes (`protectedPrefixes`). -/
def protectedPrefixes : List String :=
  ["/usr", "/bin", "/sbin", "/etc", "/var", "/tmp",
   "/private", "/System", "/Library", "/Applications"]

/-- Whether a cleaned path equals or lies under a system prefix (the
prefix loop of `isProtectedPath`). -/
def underSystemPrefixes (cleaned : List Char) : Bool :=
  protectedPrefixes.any fun pre =>
    cleaned = pre.toList || (pre.toList ++ ['/']).isPrefixOf cleaned

/-- Embeds `isProtectedPath`: system prefixes, then the home directory
and its ancestors; `home = none` models an `os.UserHomeDir` failure. -/
def isProtectedPath (home : Option String) (path : String) : Bool :=
  underSystemPrefixes (cleanPath path.toList) ||
    match home with
    | some h =>
      cleanPath path.toList = cleanPath h.toList ||
        (cleanPath path.toList ++ ['/']).isPrefixOf (cleanPath h.toList)
    | none => false

/-- Embeds `isActiveVenv`: an unset `VIRTUAL_ENV` never matches,
otherwise the cleaned paths are compared. -/
def isActiveVenv (venvEnv : String) (path : String) : Bool :=
  if venvEnv = "" then false
  else cleanPath path.toList = cleanPath venvEnv.toList

/-- Embeds `filterSafeRecords`: drop Records whose path is the active
environment or a protected path. -/
def filterSafeRecords (venvEnv : String) (home : Option String)
    (records : List Record) : List Record :=
  records.filter fun r =>
    !(isActiveVenv venvEnv (renderPath r.path)) &&
      !(isProtectedPath home (renderPath r.path))

/-! ### Classification order, read off the walker -/

/-- The artifact type the walker's body assigns to a directory, in the
order the source evaluates the checks: the name-based table first, then
the parent-validated `dist` and `build`, then the content-validated
`venv`; the first enabled match wins. -/
def classifyFirstMatch (opts : Options) (parent : List FSTree)
    (t : FSTree) : Option String :=
  match skipUnlessScanning t.name with
  | some k => if k ∈ opts.scanTypes then some k else none
  | none =>
    if t.name = "dist" ∧ "dist" ∈ opts.scanTypes ∧ hasBuildParent parent then
      some "dist"
    else if t.name = "build" ∧ "build" ∈ opts.scanTypes ∧
        hasBuildParent parent then
      some "build"
    else if "venv" ∈ opts.scanTypes ∧ isVenv t then some "venv"
    else none

/-- Modelled from the spec (claim C1's order): the content-validated
type is checked first, then the name-based types, then the
parent-validated types; the first enabled match wins. -/
def classifySpecOrderC1 (opts : Options) (parent : List FSTree)
    (t : FSTree) : Option String :=
  if "venv" ∈ opts.scanTypes ∧ isVenv t ∧ isValidVenv t then some "venv"
  else
    match skipUnlessScanning t.name with
    | some k => if k ∈ opts.scanTypes then some k else none
    | none =>
      if t.name = "dist" ∧ "dist" ∈ opts.scanTypes ∧ hasBuildParent parent then
        some "dist"
      else if t.name = "build" ∧ "build" ∈ opts.scanTypes ∧
          hasBuildParent parent then
        some "build"
      else none

/-- Modelled from the spec (claim C5): prefer the internal lock-state
file's time; else the first existing sibling lock file among the
recognised names; else the directory's own modification time. -/
def nodeModulesUsageSpecC5 (parent : List FSTree) (t : FSTree) : Nat × Bool :=
  match lookupChild t.children ".package-lock.json" with
  | some e => (e.mtime, true)
  | none =>
    match ["package-lock.json", "yarn.lock", "pnpm-lock.yaml",
        "bun.lockb"].findSome? (lookupChild parent) with
    | some e => (e.mtime, true)
    | none => (t.mtime, true)

/-- A comma-split selection token is acceptable to `parseSelection`:
empty after trimming (skipped), a 1-based in-range number, or an
ordered 1-based in-range range. -/
def tokenOKB (max : Int) (part : List Char) : Bool :=
  if trimSpace part = [] then true
  else if (trimSpace part).contains '-' then
    match atoi (trimSpace ((trimSpace part).takeWhile (· ≠ '-'))),
        atoi (trimSpace (((trimSpace part).dropWhile (· ≠ '-')).drop 1)) with
    | some lo, some hi => 1 ≤ lo && 1 ≤ hi && lo ≤ hi && hi ≤ max
    | _, _ => false
  else
    match atoi (trimSpace part) with
    | some n => 1 ≤ n && n ≤ max
    | none => false

/-- Modelled from the spec (claim C10): a comma-split token is faulty
when it is non-numeric, references an index below 1 or above `max`, or
is a range whose start exceeds its end — with no exemption for empty
tokens. -/
def claimTokenBadC10 (max : Int) (part : List Char) : Bool :=
  if (trimSpace part).contains '-' then
    match atoi (trimSpace ((trimSpace part).takeWhile (· ≠ '-'))),
        atoi (trimSpace (((trimSpace part).dropWhile (· ≠ '-')).drop 1)) with
    | some lo, some hi => lo < 1 || hi < 1 || hi < lo || max < hi || max < lo
    | _, _ => true
  else
    match atoi (trimSpace part) with
    | some n => n < 1 || max < n
    | none => true

/-- Non-empty path components of a cleaned path, used to phrase the
spec's component-wise ancestor relation. -/
def pathCompsOf (s : String) : List String :=
  (splitOnSlash (cleanPath s.toList)).filter fun e => e ≠ ""

/-- Modelled from the spec (claim C8): `p` is a strict ancestor of
`home` when its cleaned components strictly prefix home's cleaned
components. -/
def strictAncestorSpecC8 (p home : String) : Bool :=
  (pathCompsOf p).isPrefixOf (pathCompsOf home) &&
    cleanPath p.toList ≠ cleanPath home.toList

/-! ### Concrete scenarios used by the counterexamples and witnesses -/

/-- A `node_modules` directory that also carries a full venv layout. -/
def nmNodeC1 : FSTree :=
  .dir "node_modules" 10
    [.file "pyvenv.cfg" 5 4, .dir "bin" 6 [.file "activate" 7 3]]

/-- Root holding `nmNodeC1`. -/
def fsC1 : FSTree := .dir "" 1 [nmNodeC1]

/-- Both the venv type and the node_modules type enabled, thresholds 0. -/
def optsC1 : Options := ⟨0, 5, 0, [], ["venv", "node_modules"]⟩

/-- A valid venv directory nested inside another valid venv. -/
def venvInnerC3 : FSTree :=
  .dir "b" 20 [.file "pyvenv.cfg" 21 1, .dir "bin" 22 [.file "activate" 23 2]]

/-- The outer venv containing `venvInnerC3`. -/
def venvOuterC3 : FSTree :=
  .dir "a" 10
    [.file "pyvenv.cfg" 11 1, .dir "bin" 12 [.file "activate" 13 2],
      venvInnerC3]

/-- Root holding `venvOuterC3`. -/
def fsC3 : FSTree := .dir "" 1 [venvOuterC3]

/-- Venv scanning only, thresholds 0. -/
def optsC3 : Options := ⟨0, 5, 0, [], ["venv"]⟩

/-- A `node_modules` directory whose only content is a stray
`pyvenv.cfg` (an invalid venv: no `bin` or `Scripts`). -/
def nmNodeC6 : FSTree := .dir "node_modules" 30 [.file "pyvenv.cfg" 31 2]

/-- Root holding `nmNodeC6`. -/
def fsC6 : FSTree := .dir "" 1 [nmNodeC6]

/-- Venv and node_modules scanning, thresholds 0. -/
def optsC6 : Options := ⟨0, 5, 0, [], ["venv", "node_modules"]⟩

/-- A `node_modules` directory nested inside `distNodeC7`. -/
def nmChildC7 : FSTree := .dir "node_modules" 40 [.file "x.js" 41 5]

/-- A directory named `dist` with no manifest in its parent that is
itself a valid venv and contains a `node_modules` child. -/
def distNodeC7 : FSTree :=
  .dir "dist" 42
    [.file "pyvenv.cfg" 43 1, .dir "bin" 44 [.file "activate" 45 2],
      nmChildC7]

/-- Root holding `distNodeC7`, with no build-system manifests. -/
def fsC7 : FSTree := .dir "" 1 [distNodeC7]

/-- Venv, node_modules and dist scanning, thresholds 0. -/
def optsC7 : Options := ⟨0, 5, 0, [], ["venv", "node_modules", "dist"]⟩

/-- A single valid venv used by threshold witnesses. -/
def venvNodeW : FSTree :=
  .dir "venvw" 10
    [.file "pyvenv.cfg" 11 1, .dir "bin" 12 [.file "activate" 13 2]]

/-- Root holding `venvNodeW`. -/
def fsW : FSTree := .dir "" 1 [venvNodeW]

/-- Venv scanning with a one-day age threshold and a two-byte size
threshold. -/
def optsW : Options := ⟨1, 5, 2, [], ["venv"]⟩

/-! ### Lemmas about dispatch and the walker body -/

theorem dispatchRecord_emit {now : Nat} {opts : Options} {path : List String}
    {ty : String} {u : Nat × Bool} {t : FSTree} {r : Record}
    (h : dispatchRecord now opts path ty u t = some r) :
    r.type = ty ∧ r.path = path ∧ (opts.minAge : ℚ) ≤ r.ageDays ∧
      opts.minSize ≤ (r.size : Int) := by
  by_cases h1 : u.2 = false
  · rw [dispatchRecord, if_pos h1] at h
    simp at h
  · rw [dispatchRecord, if_neg h1] at h
    by_cases h2 : ageDaysOf now u.1 < (opts.minAge : ℚ)
    · rw [if_pos h2] at h
      simp at h
    · rw [if_neg h2] at h
      by_cases h3 : (dirSize t : Int) < opts.minSize
      · rw [if_pos h3] at h
        simp at h
      · rw [if_neg h3] at h
        cases h
        exact ⟨rfl, rfl, le_of_not_lt h2, le_of_not_lt h3⟩

theorem skipUnlessScanning_ne_venv {n k : String}
    (h : skipUnlessScanning n = some k) : k ≠ "venv" := by
  unfold skipUnlessScanning at h
  split_ifs at h <;> (cases h; decide)

theorem visitDir_emit {opts : Options} {now depth : Nat}
    {parent : List FSTree} {path : List String} {t : FSTree} {r : Record}
    (h : visitDir opts now depth parent path t = some (some r)) :
    r.path = path ∧ (opts.minAge : ℚ) ≤ r.ageDays ∧
      opts.minSize ≤ (r.size : Int) ∧
      classifyFirstMatch opts parent t = some r.type ∧
      (r.type = "venv" → isValidVenv t = true) := by
  rw [visitDir] at h
  split at h
  · simp at h
  split at h
  · simp at h
  split at h
  · simp at h
  split at h
  next k hk =>
    split at h
    next hmem =>
      rw [Option.some_inj] at h
      obtain ⟨hty, hp, hage, hsz⟩ := dispatchRecord_emit h
      refine ⟨hp, hage, hsz, ?_, ?_⟩
      · rw [classifyFirstMatch, hk]
        simp [hmem, hty]
      · intro hv
        exact absurd (hty ▸ hv) (skipUnlessScanning_ne_venv hk)
    next hmem => simp at h
  next hk =>
    split at h
    next hd =>
      rw [Option.some_inj] at h
      obtain ⟨hty, hp, hage, hsz⟩ := dispatchRecord_emit h
      refine ⟨hp, hage, hsz, ?_, ?_⟩
      · rw [classifyFirstMatch, hk]
        simp [hd, hty]
      · intro hvv
        rw [hty] at hvv
        exact absurd hvv (by decide)
    next hd =>
      split at h
      next hb =>
        rw [Option.some_inj] at h
        obtain ⟨hty, hp, hage, hsz⟩ := dispatchRecord_emit h
        refine ⟨hp, hage, hsz, ?_, ?_⟩
        · rw [classifyFirstMatch, hk]
          simp [hd, hb, hty]
        · intro hvv
          rw [hty] at hvv
          exact absurd hvv (by decide)
      next hb =>
        split at h
        next hv =>
          split at h
          next hval => simp at h
          next hval =>
            split at h
            next hu => simp at h
            next hu =>
              split at h
              next hage =>
                split at h
                next hsz => simp at h
                next hsz =>
                  rw [Option.some_inj, Option.some_inj] at h
                  cases h
                  refine ⟨rfl, hage, le_of_not_lt hsz, ?_, fun _ => ?_⟩
                  · rw [classifyFirstMatch, hk]
                    simp [hd, hb, hv]
                  · revert hval
                    simp
              next hage => simp at h
        next hv => simp at h

/-! ### Walk-level lemmas -/

theorem prefix_total {α : Type} {l₁ l₂ l₃ : List α} (h₁ : l₁ <+: l₃)
    (h₂ : l₂ <+: l₃) : l₁ <+: l₂ ∨ l₂ <+: l₁ := by
  rw [List.prefix_iff_eq_take] at h₁ h₂
  rcases le_total l₁.length l₂.length with h | h
  · left
    rw [h₁, h₂]
    exact List.take_isPrefix_take.mpr (Or.inl h)
  · right
    rw [h₁, h₂]
    exact List.take_isPrefix_take.mpr (Or.inl h)

theorem not_prefix_of_diverge {p : List String} {a b : String}
    {x y : List String} (ha : (p ++ [a]) <+: x) (hb : (p ++ [b]) <+: y)
    (hab : a ≠ b) : ¬ x <+: y := by
  intro hxy
  have h1 : (p ++ [a]) <+: y := ha.trans hxy
  have hlen : (p ++ [a]).length = (p ++ [b]).length := by simp
  rcases prefix_total h1 hb with h | h
  · have heq := h.eq_of_length hlen
    have : a = b := by simpa using heq
    exact hab this
  · have heq := h.eq_of_length hlen.symm
    have : b = a := by simpa using heq
    exact hab this.symm

mutual
theorem walkNode_facts (o : Options) (n d : Nat) (par : List FSTree)
    (p : List String) (t : FSTree) :
    ∀ r ∈ walkNode o n d par p t,
      ((o.minAge : ℚ) ≤ r.ageDays ∧ o.minSize ≤ (r.size : Int)) ∧
        p <+: r.path := by
  match t with
  | .file a b c =>
    intro r hr
    simp [walkNode] at hr
  | .dir nm mt cs =>
    intro r hr
    rw [walkNode] at hr
    rcases hv : visitDir o n d par p (.dir nm mt cs) with _ | ro
    · rw [hv] at hr
      obtain ⟨th, c, hc, hpre⟩ := walkList_facts o n (d + 1) cs p cs r hr
      exact ⟨th, (List.prefix_append p [c.name]).trans hpre⟩
    · rcases ro with _ | r'
      · rw [hv] at hr
        simp at hr
      · rw [hv] at hr
        simp at hr
        subst hr
        obtain ⟨hp, hage, hsz, _, _⟩ := visitDir_emit hv
        refine ⟨⟨hage, hsz⟩, ?_⟩
        rw [hp]

theorem walkList_facts (o : Options) (n d : Nat) (par : List FSTree)
    (p : List String) (l : List FSTree) :
    ∀ r ∈ walkList o n d par p l,
      ((o.minAge : ℚ) ≤ r.ageDays ∧ o.minSize ≤ (r.size : Int)) ∧
        ∃ c ∈ l, (p ++ [c.name]) <+: r.path := by
  match l with
  | [] =>
    intro r hr
    simp [walkList] at hr
  | c :: rest =>
    intro r hr
    rw [walkList] at hr
    rcases List.mem_append.1 hr with h1 | h2
    · obtain ⟨th, hpre⟩ := walkNode_facts o n d par (p ++ [c.name]) c r h1
      exact ⟨th, c, List.mem_cons_self _ _, hpre⟩
    · obtain ⟨th, c', hc', hpre⟩ := walkList_facts o n d par p rest r h2
      exact ⟨th, c', List.mem_cons_of_mem _ hc', hpre⟩
end

mutual
theorem walkNode_pairwise (o : Options) (n d : Nat) (par : List FSTree)
    (p : List String) (t : FSTree) (hw : wfTree t = true) :
    (walkNode o n d par p t).Pairwise
      (fun r1 r2 => ¬ r1.path <+: r2.path ∧ ¬ r2.path <+: r1.path) := by
  match t with
  | .file a b c =>
    rw [walkNode]
    exact List.Pairwise.nil
  | .dir nm mt cs =>
    rw [walkNode]
    rcases hv : visitDir o n d par p (.dir nm mt cs) with _ | ro
    · rw [wfTree] at hw
      simp only [Bool.and_eq_true] at hw
      exact walkList_pairwise o n (d + 1) cs p cs hw.1 hw.2
    · rcases ro with _ | r'
      · exact List.Pairwise.nil
      · exact List.pairwise_singleton _ _

theorem walkList_pairwise (o : Options) (n d : Nat) (par : List FSTree)
    (p : List String) (l : List FSTree)
    (hnd : nodupNames (l.map FSTree.name) = true) (hwf : wfList l = true) :
    (walkList o n d par p l).Pairwise
      (fun r1 r2 => ¬ r1.path <+: r2.path ∧ ¬ r2.path <+: r1.path) := by
  match l with
  | [] =>
    rw [walkList]
    exact List.Pairwise.nil
  | c :: rest =>
    rw [walkList]
    rw [List.pairwise_append]
    rw [wfList] at hwf
    simp only [Bool.and_eq_true] at hwf
    simp only [List.map_cons, nodupNames, Bool.and_eq_true,
      Bool.not_eq_true'] at hnd
    refine ⟨walkNode_pairwise o n d par (p ++ [c.name]) c hwf.1,
      walkList_pairwise o n d par p rest ?_ hwf.2, ?_⟩
    · exact hnd.2
    · intro r1 h1 r2 h2
      obtain ⟨_, hpre1⟩ := walkNode_facts o n d par (p ++ [c.name]) c r1 h1
      obtain ⟨_, c', hc', hpre2⟩ := walkList_facts o n d par p rest r2 h2
      have hne : c.name ≠ c'.name := by
        intro hcon
        have : c.name ∈ rest.map FSTree.name := by
          rw [hcon]
          exact List.mem_map_of_mem _ hc'
        have h2 : (List.map FSTree.name rest).contains c.name = true := by
          exact List.elem_eq_true_of_mem this
        rw [hnd.1] at h2
        cases h2
      exact ⟨not_prefix_of_diverge hpre1 hpre2 hne,
        not_prefix_of_diverge hpre2 hpre1 hne.symm⟩
end


/-! ### Filesystem and scan-level lemmas -/

theorem wfList_mem {l : List FSTree} {c : FSTree} (hw : wfList l = true)
    (hc : c ∈ l) : wfTree c = true := by
  induction l with
  | nil => cases hc
  | cons a rest ih =>
    rw [wfList] at hw
    simp only [Bool.and_eq_true] at hw
    rcases List.mem_cons.1 hc with rfl | hc'
    · exact hw.1
    · exact ih hw.2 hc'

theorem statPath_wf {fs : FSTree} {p : List String} {t : FSTree}
    (hw : wfTree fs = true) (h : statPath fs p = some t) : wfTree t = true := by
  induction p generalizing fs with
  | nil =>
    rw [statPath] at h
    cases h
    exact hw
  | cons n rest ih =>
    rw [statPath] at h
    rcases hl : lookupChild fs.children n with _ | c
    · rw [hl] at h
      cases h
    · rw [hl] at h
      refine ih ?_ h
      have hc : c ∈ fs.children := List.mem_of_find?_eq_some hl
      cases fs with
      | file a b s => simp [FSTree.children] at hc
      | dir a b cs =>
        rw [wfTree] at hw
        simp only [Bool.and_eq_true] at hw
        exact wfList_mem hw.2 hc

theorem scanRoots_fold (fs : FSTree) (opts : Options) (now : Nat)
    (roots : List (List String)) (acc : List Record × List String) :
    roots.foldl (scanStep fs opts now) acc =
      (acc.1 ++ roots.flatMap (rootRecords fs opts now),
       acc.2 ++ roots.filterMap (rootError fs)) := by
  induction roots generalizing acc with
  | nil => simp
  | cons root rest ih =>
    rw [List.foldl_cons, ih]
    rcases h : statPath fs root with _ | t <;>
      simp [scanStep, rootRecords, rootError, h]

theorem scanRoots_eq (fs : FSTree) (roots : List (List String))
    (opts : Options) (now : Nat) :
    scanRoots fs roots opts now =
      (roots.flatMap (rootRecords fs opts now),
       roots.filterMap (rootError fs)) := by
  rw [scanRoots, scanRoots_fold]
  simp

theorem rootRecords_facts {fs : FSTree} {opts : Options} {now : Nat}
    {root : List String} {r : Record} (h : r ∈ rootRecords fs opts now root) :
    ((opts.minAge : ℚ) ≤ r.ageDays ∧ opts.minSize ≤ (r.size : Int)) ∧
      root <+: r.path := by
  rw [rootRecords] at h
  rcases hs : statPath fs root with _ | t
  · rw [hs] at h
    cases h
  · rw [hs] at h
    exact walkNode_facts opts now 0 (parentChildrenOf fs root) root t r h

theorem rootRecords_pairwise {fs : FSTree} {opts : Options} {now : Nat}
    {root : List String} (hw : wfTree fs = true) :
    (rootRecords fs opts now root).Pairwise
      (fun r1 r2 => ¬ r1.path <+: r2.path ∧ ¬ r2.path <+: r1.path) := by
  rw [rootRecords]
  rcases hs : statPath fs root with _ | t
  · exact List.Pairwise.nil
  · exact walkNode_pairwise opts now 0 (parentChildrenOf fs root) root t
      (statPath_wf hw hs)

/-! ### Lemmas about string and path helpers -/

theorem lockLoop_eq (parent : List FSTree) (names : List String) :
    lockLoop parent names = names.findSome? (lookupChild parent) := by
  induction names with
  | nil => rfl
  | cons n rest ih =>
    rw [lockLoop, List.findSome?_cons]
    cases lookupChild parent n
    · exact ih
    · rfl

theorem renderPathChars_head (p : List String) :
    ∃ b, renderPathChars p = '/' :: b := by
  cases p with
  | nil => exact ⟨[], rfl⟩
  | cons n rest =>
    refine ⟨n.toList ++ rest.flatMap (fun m => '/' :: m.toList), ?_⟩
    have he : renderPathChars (n :: rest) =
        (n :: rest).flatMap (fun m => '/' :: m.toList) := rfl
    rw [he]
    simp

theorem cleanPath_rooted (l : List Char) :
    ∃ b, cleanPath ('/' :: l) = '/' :: b := by
  rw [cleanPath]
  simp

theorem cleanPath_render_ne_dot (p : List String) :
    cleanPath (renderPathChars p) ≠ ['.'] := by
  obtain ⟨b, hb⟩ := renderPathChars_head p
  rw [hb]
  obtain ⟨b', hb'⟩ := cleanPath_rooted b
  rw [hb']
  simp

theorem subdir_of_home_eligible {h path : String}
    (hsub : (cleanPath h.toList ++ ['/']).isPrefixOf
      (cleanPath path.toList) = true)
    (hsys : underSystemPrefixes (cleanPath path.toList) = false) :
    isProtectedPath (some h) path = false := by
  rw [List.isPrefixOf_iff_prefix] at hsub
  have hlen := hsub.length_le
  simp only [List.length_append, List.length_singleton] at hlen
  rw [isProtectedPath, hsys]
  simp only [Bool.false_or]
  have h1 : ¬ cleanPath path.toList = cleanPath h.toList := by
    intro he
    rw [he] at hlen
    omega
  have h2 : (cleanPath path.toList ++ ['/']).isPrefixOf
      (cleanPath h.toList) = false := by
    rw [Bool.eq_false_iff]
    intro hcon
    rw [List.isPrefixOf_iff_prefix] at hcon
    have := hcon.length_le
    simp only [List.length_append, List.length_singleton] at this
    omega
  rw [h2]
  simpa using h1


/-! ### Lemmas about the CLI parsing loops -/

theorem scanTypesLoop_all_invalid {toks : List String} (m w : List String)
    (h : ∀ tok ∈ toks, tok ∉ allScanTypes) :
    scanTypesLoop toks (m, w) =
      (m, w ++ (toks.filter (fun t => t ≠ "")).map
        (fun t => "unrecognized type " ++ t)) := by
  induction toks generalizing w with
  | nil => simp [scanTypesLoop]
  | cons tok rest ih =>
    have hrest : ∀ t ∈ rest, t ∉ allScanTypes :=
      fun t ht => h t (List.mem_cons_of_mem _ ht)
    have htok : tok ∉ allScanTypes := h tok (List.mem_cons_self _ _)
    rw [scanTypesLoop]
    by_cases he : tok = ""
    · rw [if_pos he, ih _ hrest]
      subst he
      simp
    · rw [if_neg he, if_neg htok, ih _ hrest]
      simp [List.filter_cons, he]

theorem mem_insertIdx_elim {acc : List Int} {i j : Int}
    (h : j ∈ insertIdx acc i) : j ∈ acc ∨ j = i := by
  rw [insertIdx] at h
  split_ifs at h
  · exact Or.inl h
  · rcases List.mem_append.1 h with h' | h'
    · exact Or.inl h'
    · simp at h'
      exact Or.inr h'

theorem mem_foldl_insertIdx {f : Nat → Int} {j : Int} :
    ∀ (ks : List Nat) (acc : List Int),
      j ∈ ks.foldl (fun a k => insertIdx a (f k)) acc →
      j ∈ acc ∨ ∃ k ∈ ks, j = f k := by
  intro ks
  induction ks with
  | nil =>
    intro acc h
    exact Or.inl h
  | cons k rest ih =>
    intro acc h
    rw [List.foldl_cons] at h
    rcases ih _ h with h' | h'
    · rcases mem_insertIdx_elim h' with h2 | h2
      · exact Or.inl h2
      · exact Or.inr ⟨k, List.mem_cons_self _ _, h2⟩
    · obtain ⟨k2, hk2, he⟩ := h'
      exact Or.inr ⟨k2, List.mem_cons_of_mem _ hk2, he⟩

theorem mem_addRange_elim {acc : List Int} {lo hi j : Int}
    (h : j ∈ addRange acc lo hi) :
    j ∈ acc ∨ (lo - 1 ≤ j ∧ j ≤ hi - 1) := by
  rw [addRange] at h
  rcases mem_foldl_insertIdx _ _ h with h' | ⟨k, hk, he⟩
  · exact Or.inl h'
  · right
    rw [List.mem_range] at hk
    have hcast : Int.ofNat k = (k : Int) := rfl
    rw [hcast] at he
    omega

theorem selLoop_ok_iff (max : Int) :
    ∀ (parts : List (List Char)) (acc : List Int),
      exceptOk (selLoop max parts acc) = true ↔
        ∀ part ∈ parts, tokenOKB max part = true := by
  intro parts
  induction parts with
  | nil =>
    intro acc
    simp [selLoop, exceptOk]
  | cons part rest ih =>
    intro acc
    rw [selLoop, List.forall_mem_cons]
    split
    next hp =>
      rw [ih]
      have ht : tokenOKB max part = true := by rw [tokenOKB, if_pos hp]
      simp [ht]
    next hp =>
    split
    next hd =>
      split
      next hlo =>
        have ht : tokenOKB max part = false := by
          rw [tokenOKB, if_neg hp, if_pos hd, hlo]
        simp [exceptOk, ht]
      next lo hlo =>
        split
        next hhi =>
          have ht : tokenOKB max part = false := by
            rw [tokenOKB, if_neg hp, if_pos hd, hlo, hhi]
          simp [exceptOk, ht]
        next hi hhi =>
          split_ifs with c1 c2 c3
          · have ht : tokenOKB max part = false := by
              rw [tokenOKB, if_neg hp, if_pos hd, hlo, hhi,
                Bool.eq_false_iff]
              intro hcon
              simp only [Bool.and_eq_true, decide_eq_true_eq] at hcon
              omega
            simp [exceptOk, ht]
          · have ht : tokenOKB max part = false := by
              rw [tokenOKB, if_neg hp, if_pos hd, hlo, hhi,
                Bool.eq_false_iff]
              intro hcon
              simp only [Bool.and_eq_true, decide_eq_true_eq] at hcon
              omega
            simp [exceptOk, ht]
          · have ht : tokenOKB max part = false := by
              rw [tokenOKB, if_neg hp, if_pos hd, hlo, hhi,
                Bool.eq_false_iff]
              intro hcon
              simp only [Bool.and_eq_true, decide_eq_true_eq] at hcon
              omega
            simp [exceptOk, ht]
          · rw [ih]
            have ht : tokenOKB max part = true := by
              rw [tokenOKB, if_neg hp, if_pos hd, hlo, hhi]
              simp only [Bool.and_eq_true, decide_eq_true_eq]
              omega
            simp [ht]
    next hd =>
      split
      next hn =>
        have ht : tokenOKB max part = false := by
          rw [tokenOKB, if_neg hp, if_neg hd, hn]
        simp [exceptOk, ht]
      next n hn =>
        split_ifs with c1 c2
        · have ht : tokenOKB max part = false := by
            rw [tokenOKB, if_neg hp, if_neg hd, hn, Bool.eq_false_iff]
            intro hcon
            simp only [Bool.and_eq_true, decide_eq_true_eq] at hcon
            omega
          simp [exceptOk, ht]
        · have ht : tokenOKB max part = false := by
            rw [tokenOKB, if_neg hp, if_neg hd, hn, Bool.eq_false_iff]
            intro hcon
            simp only [Bool.and_eq_true, decide_eq_true_eq] at hcon
            omega
          simp [exceptOk, ht]
        · rw [ih]
          have ht : tokenOKB max part = true := by
            rw [tokenOKB, if_neg hp, if_neg hd, hn]
            simp only [Bool.and_eq_true, decide_eq_true_eq]
            omega
          simp [ht]

theorem selLoop_ok_mem (max : Int) :
    ∀ (parts : List (List Char)) (acc l : List Int),
      selLoop max parts acc = .ok l → ∀ j ∈ l, j ∈ acc ∨ (0 ≤ j ∧ j < max) := by
  intro parts
  induction parts with
  | nil =>
    intro acc l h j hj
    rw [selLoop] at h
    cases h
    exact Or.inl hj
  | cons part rest ih =>
    intro acc l h j hj
    rw [selLoop] at h
    split at h
    next hp => exact ih _ _ h j hj
    next hp =>
    split at h
    next hd =>
      split at h
      next hlo => cases h
      next lo hlo =>
        split at h
        next hhi => cases h
        next hi hhi =>
          by_cases c1 : lo < 1 ∨ hi < 1
          · rw [if_pos c1] at h
            cases h
          · rw [if_neg c1] at h
            by_cases c2 : hi < lo
            · rw [if_pos c2] at h
              cases h
            · rw [if_neg c2] at h
              by_cases c3 : max < hi
              · rw [if_pos c3] at h
                cases h
              · rw [if_neg c3] at h
                rcases ih _ _ h j hj with h2 | h2
                · rcases mem_addRange_elim h2 with h3 | h3
                  · exact Or.inl h3
                  · right
                    omega
                · exact Or.inr h2
    next hd =>
      split at h
      next hn => cases h
      next n hn =>
        by_cases c1 : n < 1
        · rw [if_pos c1] at h
          cases h
        · rw [if_neg c1] at h
          by_cases c2 : max < n
          · rw [if_pos c2] at h
            cases h
          · rw [if_neg c2] at h
            rcases ih _ _ h j hj with h2 | h2
            · rcases mem_insertIdx_elim h2 with h3 | h3
              · exact Or.inl h3
              · right
                omega
            · exact Or.inr h2


/-! ### Claim theorems -/

theorem skipUnlessScanning_ne_build {n k : String}
    (h : skipUnlessScanning n = some k) : k ≠ "dist" ∧ k ≠ "build" := by
  unfold skipUnlessScanning at h
  split_ifs at h <;> (cases h; exact ⟨by decide, by decide⟩)

/-- C1 counterexample: a directory named `node_modules` that also passes
the enabled venv content check (pyvenv.cfg and bin/ present) is
classified and reported as `node_modules` by the scan, while the spec's
claimed order (content-validated venv first) classifies it as `venv`:
the checks are not evaluated venv-first. -/
theorem scan_type_order_counterexample :
    (scanRoots fsC1 [[]] optsC1 1000000).1.map Record.type =
        ["node_modules"] ∧
      classifySpecOrderC1 optsC1 fsC1.children nmNodeC1 = some "venv" ∧
      lookupChild fsC1.children "node_modules" = some nmNodeC1 ∧
      "venv" ∈ optsC1.scanTypes ∧ isVenv nmNodeC1 = true ∧
      isValidVenv nmNodeC1 = true :=
  ⟨by decide, rfl, rfl, by decide, rfl, rfl⟩

/-- C1 (amended): the walker evaluates the artifact-type checks in a
fixed order — the name-based types first, then the parent-validated
`dist` and `build`, then the content-validated `venv` — and the first
matching enabled type wins, so every Record a directory visit emits
carries exactly the type assigned by that first-match order. -/
theorem visitDir_classification_order (opts : Options) (now depth : Nat)
    (parent : List FSTree) (path : List String) (t : FSTree) (r : Record)
    (h : visitDir opts now depth parent path t = some (some r)) :
    classifyFirstMatch opts parent t = some r.type :=
  (visitDir_emit h).2.2.2.1

/-- C1 witness: the classification order theorem applied to the
`node_modules`-with-venv-content directory. -/
theorem visitDir_classification_order_witness :
    classifyFirstMatch optsC1 fsC1.children nmNodeC1 =
      some (Record.type ⟨"node_modules", ["node_modules"], 7, 10,
        ageDaysOf 1000000 10⟩) :=
  visitDir_classification_order optsC1 1000000 1 fsC1.children
    ["node_modules"] nmNodeC1
    ⟨"node_modules", ["node_modules"], 7, 10, ageDaysOf 1000000 10⟩
    (by decide)

/-- C2: every Record in the list returned by `scanRoots` satisfies the
configured minimum age and minimum size, for every filesystem, root set
and configuration. -/
theorem scanRoots_threshold_invariant (fs : FSTree)
    (roots : List (List String)) (opts : Options) (now : Nat) (r : Record)
    (h : r ∈ (scanRoots fs roots opts now).1) :
    (opts.minAge : ℚ) ≤ r.ageDays ∧ opts.minSize ≤ (r.size : Int) := by
  rw [scanRoots_eq] at h
  simp only [List.mem_flatMap] at h
  obtain ⟨root, _, hr⟩ := h
  exact (rootRecords_facts hr).1

/-- C2 witness: the threshold invariant applied to a concrete scan that
returns one venv record. -/
theorem scanRoots_threshold_invariant_witness :
    (optsW.minAge : ℚ) ≤
        Record.ageDays ⟨"venv", ["venvw"], 3, 13, ageDaysOf 1000000 13⟩ ∧
      optsW.minSize ≤
        ((Record.size ⟨"venv", ["venvw"], 3, 13, ageDaysOf 1000000 13⟩ : Nat)
          : Int) :=
  scanRoots_threshold_invariant fsW [[]] optsW 1000000
    ⟨"venv", ["venvw"], 3, 13, ageDaysOf 1000000 13⟩ (by decide)

/-- C3 counterexample: with nested roots (`/a` and `/a/b`, both venvs)
one scan reports two distinct Records whose paths are in the prefix
relation, so the no-double-reporting claim fails for arbitrary root
sets. -/
theorem scan_no_double_reporting_counterexample :
    (scanRoots fsC3 [["a"], ["a", "b"]] optsC3 1000000).1.map Record.path =
        [["a"], ["a", "b"]] ∧
      (["a"] : List String) <+: ["a", "b"] ∧
      (["a"] : List String) ≠ ["a", "b"] :=
  ⟨by decide, ⟨["b"], rfl⟩, by decide⟩

/-- C3 (amended): on a well-formed filesystem (distinct sibling names),
for roots that are pairwise non-nested and distinct, no two Records of
one scan stand in the path-prefix relation — no path is reported twice
and no reported artifact lies inside another reported artifact. -/
theorem scan_no_double_reporting (fs : FSTree) (roots : List (List String))
    (opts : Options) (now : Nat) (hw : wfTree fs = true)
    (hroots : roots.Pairwise (fun p q => ¬ p <+: q ∧ ¬ q <+: p)) :
    ((scanRoots fs roots opts now).1).Pairwise
      (fun r1 r2 => ¬ r1.path <+: r2.path ∧ ¬ r2.path <+: r1.path) := by
  rw [scanRoots_eq]
  dsimp only
  revert hroots
  induction roots with
  | nil =>
    intro _
    simp
  | cons root rest ih =>
    intro hroots
    rw [List.pairwise_cons] at hroots
    rw [List.flatMap_cons, List.pairwise_append]
    refine ⟨rootRecords_pairwise hw, ih hroots.2, ?_⟩
    intro r1 h1 r2 h2
    rw [List.mem_flatMap] at h2
    obtain ⟨root2, hroot2, hr2⟩ := h2
    have hp1 := (rootRecords_facts h1).2
    have hp2 := (rootRecords_facts hr2).2
    have hne := hroots.1 root2 hroot2
    constructor
    · intro hcon
      rcases prefix_total (hp1.trans hcon) hp2 with hcmp | hcmp
      · exact hne.1 hcmp
      · exact hne.2 hcmp
    · intro hcon
      rcases prefix_total (hp2.trans hcon) hp1 with hcmp | hcmp
      · exact hne.2 hcmp
      · exact hne.1 hcmp

/-- C3 witness: the no-double-reporting theorem applied to a concrete
one-root scan that returns one record. -/
theorem scan_no_double_reporting_witness :
    ((scanRoots fsW [[]] optsW 1000000).1).Pairwise
      (fun r1 r2 => ¬ r1.path <+: r2.path ∧ ¬ r2.path <+: r1.path) :=
  scan_no_double_reporting fsW [[]] optsW 1000000 (by decide)
    (List.pairwise_singleton _ _)

/-- C4: `scanRoots` resolves to, for each root, either its walk's records
or one error entry naming the inaccessible root's path; bad roots never
abort the scan and the records of accessible roots are still returned
alongside the error list. -/
theorem scanRoots_bad_roots (fs : FSTree) (roots : List (List String))
    (opts : Options) (now : Nat) :
    scanRoots fs roots opts now =
      (roots.flatMap (rootRecords fs opts now),
        roots.filterMap (rootError fs)) ∧
      ∀ root, rootError fs root =
        if (statPath fs root).isNone
        then some ("path not accessible " ++ renderPath root) else none := by
  refine ⟨scanRoots_eq fs roots opts now, ?_⟩
  intro root
  rcases h : statPath fs root with _ | t <;> simp [rootError, h]

/-- C5: `getNodeModulesUsage` returns the internal `.package-lock.json`
modification time when present, otherwise the first existing sibling
lock file among package-lock.json, yarn.lock, pnpm-lock.yaml, bun.lockb,
otherwise the directory's own modification time; the directory itself
always stats successfully in this model, so `found` is always true. -/
theorem getNodeModulesUsage_spec (parent : List FSTree) (t : FSTree) :
    getNodeModulesUsage parent t = nodeModulesUsageSpecC5 parent t ∧
      (getNodeModulesUsage parent t).2 = true := by
  constructor
  · rw [getNodeModulesUsage, nodeModulesUsageSpecC5, lockLoop_eq]
  · rw [getNodeModulesUsage]
    cases lookupChild t.children ".package-lock.json" with
    | some e => rfl
    | none =>
      cases lockLoop parent
          ["package-lock.json", "yarn.lock", "pnpm-lock.yaml",
            "bun.lockb"] with
      | some e => rfl
      | none => rfl

/-- C6 counterexample: a directory named `node_modules` containing a
stray `pyvenv.cfg` but no `bin` or `Scripts` (an invalid venv) is still
emitted as a Record — of type `node_modules` — even though the venv type
is enabled, so the claim that such a directory is never emitted fails. -/
theorem invalid_venv_skip_counterexample :
    (scanRoots fsC6 [[]] optsC6 1000000).1.map
        (fun r => (r.type, r.path)) = [("node_modules", ["node_modules"])] ∧
      lookupChild fsC6.children "node_modules" = some nmNodeC6 ∧
      isVenv nmNodeC6 = true ∧ isValidVenv nmNodeC6 = false ∧
      "venv" ∈ optsC6.scanTypes :=
  ⟨by decide, rfl, rfl, rfl, by decide⟩

/-- C6 (amended): with the venv type enabled, a directory containing
`pyvenv.cfg` but neither `bin` nor `Scripts` is never descended into
(the walker always prunes it) and is never emitted as a venv Record;
it can still be emitted under a name-based or parent-validated type. -/
theorem invalid_venv_never_venv_record (opts : Options) (now depth : Nat)
    (parent : List FSTree) (path : List String) (nm : String) (mt : Nat)
    (cs : List FSTree) (hscan : "venv" ∈ opts.scanTypes)
    (hvenv : isVenv (.dir nm mt cs) = true)
    (hinv : isValidVenv (.dir nm mt cs) = false) :
    visitDir opts now depth parent path (.dir nm mt cs) ≠ none ∧
      ∀ r, visitDir opts now depth parent path (.dir nm mt cs) =
        some (some r) → r.type ≠ "venv" := by
  constructor
  · intro hcon
    rw [visitDir] at hcon
    split at hcon
    · cases hcon
    · split at hcon
      · cases hcon
      · split at hcon
        · cases hcon
        · split at hcon
          next k hk =>
            split at hcon
            · cases hcon
            · cases hcon
          next hk =>
            split at hcon
            · cases hcon
            · split at hcon
              · cases hcon
              · split at hcon
                next hv =>
                  split at hcon
                  · cases hcon
                  · split at hcon
                    · cases hcon
                    · split at hcon
                      · split at hcon
                        · cases hcon
                        · cases hcon
                      · cases hcon
                next hv => exact hv ⟨hscan, hvenv⟩
  · intro r hr hty
    have hval := (visitDir_emit hr).2.2.2.2 hty
    rw [hinv] at hval
    cases hval

/-- C6 witness: a plain directory with only a stray `pyvenv.cfg` is
pruned without any record. -/
theorem invalid_venv_never_venv_record_witness :
    visitDir optsC6 1000000 1 [] ["foo"]
        (.dir "foo" 1 [.file "pyvenv.cfg" 2 1]) ≠ none ∧
      ∀ r, visitDir optsC6 1000000 1 [] ["foo"]
          (.dir "foo" 1 [.file "pyvenv.cfg" 2 1]) =
        some (some r) → r.type ≠ "venv" :=
  invalid_venv_never_venv_record optsC6 1000000 1 [] ["foo"] "foo" 1
    [.file "pyvenv.cfg" 2 1] (by decide) rfl rfl

/-- C7 counterexample: a directory named `dist` with no manifest in its
parent is not reported as dist, but the walker does not continue into
it: here it is itself a valid venv, so it is classified venv and pruned,
and its `node_modules` child — classifiable on its own — never appears
in the scan's output. -/
theorem unvalidated_build_dir_counterexample :
    hasBuildParent fsC7.children = false ∧
      distNodeC7.name = "dist" ∧
      visitDir optsC7 1000000 1 fsC7.children ["dist"] distNodeC7 ≠ none ∧
      (scanRoots fsC7 [[]] optsC7 1000000).1.map
        (fun r => (r.type, r.path)) = [("venv", ["dist"])] ∧
      classifyFirstMatch optsC7 distNodeC7.children nmChildC7 =
        some "node_modules" :=
  ⟨rfl, rfl, by decide, by decide, rfl⟩

/-- C7 (amended): a directory visit with no recognised manifest in the
parent never emits a `dist` or `build` Record; and a directory named
`dist` or `build` in that situation is treated as an ordinary directory:
unless another rule fires (depth pruning, exclude patterns, or the
enabled venv content check), the walker descends into it, keeping its
children reachable. -/
theorem unvalidated_build_dir (opts : Options) (now depth : Nat)
    (parent : List FSTree) (path : List String) (t : FSTree)
    (hbp : hasBuildParent parent = false) :
    (∀ r, visitDir opts now depth parent path t = some (some r) →
        r.type ≠ "dist" ∧ r.type ≠ "build") ∧
      (∀ nm mt cs, t = .dir nm mt cs → (nm = "dist" ∨ nm = "build") →
        ¬ (depth ≠ 0 ∧ opts.maxDepth < (depth : Int)) →
        matchesExclude (renderPathChars path) opts.excludePatterns = false →
        ¬ ("venv" ∈ opts.scanTypes ∧ isVenv t = true) →
        visitDir opts now depth parent path t = none) := by
  constructor
  · intro r hr
    have hcl := (visitDir_emit hr).2.2.2.1
    rw [classifyFirstMatch] at hcl
    revert hcl
    split
    next k hk =>
      split_ifs with hmem
      · intro hcl
        rw [Option.some_inj] at hcl
        rw [← hcl]
        exact skipUnlessScanning_ne_build hk
      · intro hcl
        cases hcl
    next hk =>
      split_ifs with hd hb hv
      · exact fun _ => absurd hd.2.2 (by simp [hbp])
      · exact fun _ => absurd hb.2.2 (by simp [hbp])
      · intro hcl
        rw [Option.some_inj] at hcl
        rw [← hcl]
        exact ⟨by decide, by decide⟩
      · intro hcl
        cases hcl
  · rintro nm mt cs rfl hname hdepth hexc hnv
    rcases hname with rfl | rfl
    · rw [visitDir, if_neg hdepth]
      have h1 : FSTree.name (FSTree.dir "dist" mt cs) = "dist" := rfl
      rw [h1]
      rw [if_neg (show ¬ alwaysSkip "dist" = true by decide)]
      rw [if_neg (show ¬ matchesExclude (renderPathChars path)
          opts.excludePatterns = true by simp [hexc])]
      have h2 : skipUnlessScanning "dist" = none := by decide
      simp [h2, hbp, hnv]
    · rw [visitDir, if_neg hdepth]
      have h1 : FSTree.name (FSTree.dir "build" mt cs) = "build" := rfl
      rw [h1]
      rw [if_neg (show ¬ alwaysSkip "build" = true by decide)]
      rw [if_neg (show ¬ matchesExclude (renderPathChars path)
          opts.excludePatterns = true by simp [hexc])]
      have h2 : skipUnlessScanning "build" = none := by decide
      simp [h2, hbp, hnv]

/-- C7 witness: an empty `dist` directory with no manifest in its parent
is descended into. -/
theorem unvalidated_build_dir_witness :
    (∀ r, visitDir optsC3 1000000 1 [] ["dist"] (.dir "dist" 5 []) =
        some (some r) → r.type ≠ "dist" ∧ r.type ≠ "build") ∧
      (∀ nm mt cs, (.dir "dist" 5 [] : FSTree) = .dir nm mt cs →
        (nm = "dist" ∨ nm = "build") →
        ¬ ((1 : Nat) ≠ 0 ∧ optsC3.maxDepth < ((1 : Nat) : Int)) →
        matchesExclude (renderPathChars ["dist"])
          optsC3.excludePatterns = false →
        ¬ ("venv" ∈ optsC3.scanTypes ∧
          isVenv (.dir "dist" 5 []) = true) →
        visitDir optsC3 1000000 1 [] ["dist"] (.dir "dist" 5 []) = none) :=
  unvalidated_build_dir optsC3 1000000 1 [] ["dist"] (.dir "dist" 5 []) rfl


/-- C8 counterexample: the guard's home-ancestor test uses a cleaned
string-prefix comparison, so the filesystem root `/` — a strict ancestor
of the home directory — is not protected; and a strict subdirectory of a
home that lies under a system prefix (such as `/var/root`) is protected,
so it does not remain eligible.  Both directions of the claim's
protected-path characterisation fail. -/
theorem safety_filter_counterexample :
    isProtectedPath (some "/Users/fred") "/" = false ∧
      strictAncestorSpecC8 "/" "/Users/fred" = true ∧
      isProtectedPath (some "/var/root") "/var/root/venv" = true ∧
      strictAncestorSpecC8 "/var/root" "/var/root/venv" = true :=
  ⟨rfl, rfl, rfl, rfl⟩

/-- C8 (amended): every Record surviving `filterSafeRecords` fails the
active-environment test and the protected-path test, and in particular
its cleaned path differs from the cleaned `VIRTUAL_ENV` value; a path is
protected exactly when its cleaned form lies under a fixed system prefix,
equals the cleaned home directory, or is a strict string-prefix ancestor
of it (`cleaned ++ "/"` begins the cleaned home — which exempts `/`);
strict subdirectories of home remain eligible provided they are not
under a system prefix. -/
theorem filterSafeRecords_safety :
    (∀ (venvEnv : String) (home : Option String) (records : List Record)
        (r : Record), r ∈ filterSafeRecords venvEnv home records →
        isActiveVenv venvEnv (renderPath r.path) = false ∧
          isProtectedPath home (renderPath r.path) = false ∧
          cleanPath (renderPathChars r.path) ≠ cleanPath venvEnv.toList) ∧
      (∀ (h : String) (path : String), isProtectedPath (some h) path = true ↔
        (underSystemPrefixes (cleanPath path.toList) = true ∨
          cleanPath path.toList = cleanPath h.toList ∨
          (cleanPath path.toList ++ ['/']).isPrefixOf
            (cleanPath h.toList) = true)) ∧
      (∀ (h : String) (path : String),
        (cleanPath h.toList ++ ['/']).isPrefixOf
          (cleanPath path.toList) = true →
        underSystemPrefixes (cleanPath path.toList) = false →
        isProtectedPath (some h) path = false) := by
  refine ⟨?_, ?_, fun h path => subdir_of_home_eligible⟩
  · intro venvEnv home records r hr
    rw [filterSafeRecords, List.mem_filter] at hr
    have hcond := hr.2
    rw [Bool.and_eq_true, Bool.not_eq_true', Bool.not_eq_true'] at hcond
    refine ⟨hcond.1, hcond.2, ?_⟩
    by_cases he : venvEnv = ""
    · subst he
      have hdot : cleanPath ("" : String).toList = ['.'] := rfl
      rw [hdot]
      exact cleanPath_render_ne_dot r.path
    · have := hcond.1
      rw [isActiveVenv, if_neg he] at this
      intro hcon
      rw [show (renderPath r.path).toList = renderPathChars r.path from rfl,
        hcon] at this
      simp at this
  · intro h path
    rw [isProtectedPath]
    simp only [Bool.or_eq_true, decide_eq_true_eq]

/-- C8 witness: the safety conclusions applied to a record surviving a
concrete filter call. -/
theorem filterSafeRecords_safety_witness :
    isActiveVenv ""
        (renderPath (Record.path ⟨"venv", ["ok"], 1, 1, ageDaysOf 2 1⟩)) =
          false ∧
      isProtectedPath none
        (renderPath (Record.path ⟨"venv", ["ok"], 1, 1, ageDaysOf 2 1⟩)) =
          false ∧
      cleanPath (renderPathChars
          (Record.path ⟨"venv", ["ok"], 1, 1, ageDaysOf 2 1⟩)) ≠
        cleanPath ("" : String).toList :=
  filterSafeRecords_safety.1 "" none [⟨"venv", ["ok"], 1, 1, ageDaysOf 2 1⟩]
    ⟨"venv", ["ok"], 1, 1, ageDaysOf 2 1⟩ (by decide)

/-- C9: `parseScanTypes` always returns a non-empty type set; `--all`
yields exactly the eight known types with no warnings; an empty flag
yields exactly the venv default; and a flag whose comma-split,
whitespace-trimmed tokens are all unrecognised falls back to the venv
default with one warning per non-empty token. -/
theorem parseScanTypes_properties :
    (∀ tf b, (parseScanTypes tf b).1 ≠ []) ∧
      (∀ tf, parseScanTypes tf true = (allScanTypes, [])) ∧
      parseScanTypes "" false = (["venv"], []) ∧
      (∀ tf, tf ≠ "" →
        (∀ tok ∈ (splitOnComma tf.toList).map
            (fun c => (⟨trimSpace c⟩ : String)), tok ∉ allScanTypes) →
        (parseScanTypes tf false).1 = ["venv"] ∧
          (parseScanTypes tf false).2.length =
            (((splitOnComma tf.toList).map
              (fun c => (⟨trimSpace c⟩ : String))).filter
                (fun t => t ≠ "")).length) := by
  refine ⟨?_, ?_, rfl, ?_⟩
  · intro tf b
    cases b with
    | true => exact (by decide : (allScanTypes, ([] : List String)).1 ≠ [])
    | false =>
      rw [parseScanTypes]
      rw [if_neg (by decide : ¬ (false = true))]
      by_cases he : tf = ""
      · rw [if_pos he]
        decide
      · rw [if_neg he]
        split
        next hr => simp
        next hr => exact hr

  · intro tf
    rw [parseScanTypes, if_pos rfl]
  · intro tf htf hall
    rw [parseScanTypes]
    rw [if_neg (by decide : ¬ (false = true)), if_neg htf]
    rw [scanTypesLoop_all_invalid _ _ hall]
    simp

/-- C9 witness: a flag of only unrecognised and empty tokens falls back
to the venv default with one warning per non-empty token. -/
theorem parseScanTypes_properties_witness :
    (parseScanTypes "x,,y" false).1 = ["venv"] ∧
      (parseScanTypes "x,,y" false).2.length =
        (((splitOnComma ("x,,y" : String).toList).map
          (fun c => (⟨trimSpace c⟩ : String))).filter
            (fun t => t ≠ "")).length :=
  parseScanTypes_properties.2.2.2 "x,,y" (by decide) (by decide)

/-- C10 counterexample: the selection `","` comma-splits into two empty
tokens, which the claim counts as non-numeric tokens that must produce
an error, yet `parseSelection` skips them and succeeds with the empty
selection. -/
theorem parseSelection_counterexample :
    parseSelection "," 3 = .ok [] ∧
      [] ∈ splitOnComma (trimSpace (("," : String).toList)) ∧
      claimTokenBadC10 3 [] = true :=
  ⟨rfl, by decide, rfl⟩

/-- C10 (amended): trimmed-empty or `none` input selects nothing with no
error; `all` selects exactly the indices 0..max-1; otherwise the input
is comma-split and the call succeeds exactly when every token is
acceptable — empty after trimming (skipped), or a 1-based in-range
number, or an ordered 1-based in-range range — and on success every
returned index lies in [0, max-1]. -/
theorem parseSelection_characterization (input : String) (max : Int) :
    ((trimSpace input.toList = [] ∨
        toLowerGo (trimSpace input.toList) = "none".toList) →
      parseSelection input max = .ok []) ∧
    (toLowerGo (trimSpace input.toList) = "all".toList →
      parseSelection input max =
        .ok ((List.range max.toNat).map Int.ofNat)) ∧
    (¬ (trimSpace input.toList = [] ∨
        toLowerGo (trimSpace input.toList) = "none".toList) →
      toLowerGo (trimSpace input.toList) ≠ "all".toList →
      (exceptOk (parseSelection input max) = true ↔
        ∀ part ∈ splitOnComma (trimSpace input.toList),
          tokenOKB max part = true)) ∧
    (∀ l, parseSelection input max = .ok l → ∀ j ∈ l, 0 ≤ j ∧ j < max) := by
  refine ⟨?_, ?_, ?_, ?_⟩
  · intro hc
    rw [parseSelection, if_pos hc]
  · intro hall
    have h1 : ¬ (trimSpace input.toList = [] ∨
        toLowerGo (trimSpace input.toList) = "none".toList) := by
      rintro (hz | hz)
      · rw [hz] at hall
        cases hall
      · rw [hz] at hall
        cases hall
    rw [parseSelection, if_neg h1, if_pos hall]
  · intro h1 h2
    rw [parseSelection, if_neg h1, if_neg h2]
    exact selLoop_ok_iff max _ []
  · intro l hl j hj
    rw [parseSelection] at hl
    split at hl
    · cases hl
      cases hj
    · split at hl
      next hall =>
        cases hl
        rw [List.mem_map] at hj
        obtain ⟨k, hk, he⟩ := hj
        rw [List.mem_range] at hk
        have hcast : Int.ofNat k = (k : Int) := rfl
        rw [hcast] at he
        omega
      next hall =>
        rcases selLoop_ok_mem max _ _ _ hl j hj with hc | hc
        · cases hc
        · exact hc

/-- C10 witness: the success characterisation applied to a mixed
range-and-number selection. -/
theorem parseSelection_characterization_witness :
    exceptOk (parseSelection "1-3,5" 5) = true :=
  ((parseSelection_characterization "1-3,5" 5).2.2.1 (by decide)
    (by decide)).mpr (by decide)

end Tidyup
